import Mathlib

/-!
Verification development for the RoboAxis browser scene-synchronization client.

The definitions below are shallow embeddings of the JavaScript source:
* `Snap`    — the flat-snapshot reconciler `Scene3D._applySnapshot` of
  `src/unnamed/part_004` (MODEL_MAP registry, absolute 4×4 matrices,
  create/update/remove against a name → model index).
* `SceneJS` — the definition-based scene of `src/frontend/scene/scene.js`
  (`buildFromDefinition`, `updateFromState`, `setPicking`).
* `Tree`    — the scene-tree hierarchy builder of
  `src/frontend/panels/scene_tree.js` (`buildHierarchy`, root selection,
  recursive `buildNode` rendering).
* `Details` — the jog joint discovery `_getRobotJoints` of
  `src/frontend/panels/details_panel.js`.
* `Assets`  — the GLB body extraction and the per-path promise cache of
  `loadModelBody` in `src/frontend/scene/scene.js`.

Numbers carried by wire messages are modelled as rationals.  THREE's
`Matrix4.decompose` (an opaque numeric routine) is modelled as an explicit
function parameter `d : Mat16 → Trs`; every theorem quantifies over it, so
nothing proved depends on the numeric content of the decomposition.
-/

namespace RoboAxis

/-- 3-vector of rationals (THREE.Vector3 as delivered on the wire). -/
structure Vec3 where
  x : ℚ
  y : ℚ
  z : ℚ
deriving DecidableEq, Repr

/-- Quaternion (THREE.Quaternion). -/
structure Quat where
  x : ℚ
  y : ℚ
  z : ℚ
  w : ℚ
deriving DecidableEq, Repr

/-- The decomposed transform of a node: `position`, `quaternion`, `scale`. -/
structure Trs where
  position : Vec3
  quaternion : Quat
  scale : Vec3
deriving DecidableEq, Repr

/-- A 4×4 matrix flattened row-major, as handed to `THREE.Matrix4.set`. -/
abbrev Mat16 := List ℚ

/-- The identity matrix a fresh `THREE.Object3D` starts with. -/
def identity16 : Mat16 := [1,0,0,0, 0,1,0,0, 0,0,1,0, 0,0,0,1]

/-- Transform of a freshly constructed group: origin, identity rotation, unit scale. -/
def defaultTrs : Trs := ⟨⟨0,0,0⟩, ⟨0,0,0,1⟩, ⟨1,1,1⟩⟩

/-- Read cell `(i, j)` of a nested-array matrix (`props.matrix[i][j]`). -/
def cell (m : List (List ℚ)) (i j : Nat) : ℚ := (m.getD i []).getD j 0

/-- The sixteen reads `props.matrix[0][0] … props.matrix[3][3]` passed to
`Matrix4.set` by `_applySnapshot` in `src/unnamed/part_004`. -/
def flat16 (m : List (List ℚ)) : Mat16 :=
  [cell m 0 0, cell m 0 1, cell m 0 2, cell m 0 3,
   cell m 1 0, cell m 1 1, cell m 1 2, cell m 1 3,
   cell m 2 0, cell m 2 1, cell m 2 2, cell m 2 3,
   cell m 3 0, cell m 3 1, cell m 3 2, cell m 3 3]

/-- A sample decomposition function used by concrete witnesses: translation from
the row-major fourth column, identity rotation, unit scale.  The theorems hold
for every decomposition function. -/
def decompose0 : Mat16 → Trs :=
  fun m => ⟨⟨m.getD 3 0, m.getD 7 0, m.getD 11 0⟩, ⟨0,0,0,1⟩, ⟨1,1,1⟩⟩

/-! ### Association lists

A JavaScript object used as a map (`this._components`) is modelled as a list of
key/value pairs in insertion order. -/
/-- Lookup by key, first match (JS property read on a duplicate-free object). -/
def alookup {β : Type} : List (String × β) → String → Option β
  | [], _ => none
  | (k, v) :: rest, n => if k = n then some v else alookup rest n

/-- The keys of an association list, in order. -/
def keysOf {β : Type} (l : List (String × β)) : List String := l.map Prod.fst

/-- Apply `f` to the value stored under key `n` (JS in-place mutation of the
object stored under a property). -/
def aupdate {β : Type} (f : β → β) (n : String) : List (String × β) →
    List (String × β)
  | [] => []
  | (k, v) :: rest =>
      if k = n then (k, f v) :: aupdate f n rest
      else (k, v) :: aupdate f n rest

/-- JavaScript truthiness of an optional string (`undefined`, `null` and the
empty string are falsy). -/
def truthyStr : Option String → Bool
  | none => false
  | some s => !(s == "")

/-- JS property assignment `obj[k] = v`: overwrite in place when the key
exists, otherwise append in insertion order. -/
def aset {β : Type} (l : List (String × β)) (k : String) (v : β) :
    List (String × β) :=
  if k ∈ keysOf l then aupdate (fun _ => v) k l else l ++ [(k, v)]

namespace Snap

/-! ### `Snap`: the flat-snapshot reconciler of `src/unnamed/part_004`

`Scene3D._applySnapshot(data)` iterates over `Object.entries(data)`, creating a
model via `MODEL_MAP[props.type]` for unknown names (skipping silently when the
type is unregistered), applying the absolute 4×4 matrix when present, and
finally removing (and detaching from the scene) every model whose name was not
seen in this pass. -/
/-- The keys of `MODEL_MAP` in `src/unnamed/part_004`. -/
def MODEL_MAP : List String :=
  ["AxisBase", "AxisRotor", "Link", "Joint", "RobotLink", "RobotJoint"]

/-- `MODEL_MAP[props.type]` is truthy exactly when the type name is a key. -/
def registered (t : String) : Bool := MODEL_MAP.contains t

/-- One entry's properties in the flat snapshot: `{ type, matrix? }`.  The
matrix arrives as a nested row-major array `[[row0], …, [row3]]`. -/
structure Props where
  type : String
  matrix : Option (List (List ℚ))
deriving DecidableEq, Repr

/-- A live model (`THREE.Group` subclass produced by a `MODEL_MAP`
constructor).  `nodeId` is the object identity (allocation order);
`matrix`/`trs`/`matrixAutoUpdate` mirror the THREE transform slots. -/
structure Node where
  nodeId : Nat
  typeTag : String
  name : String
  matrix : Mat16
  trs : Trs
  matrixAutoUpdate : Bool
deriving DecidableEq, Repr

/-- The reconciler-owned state: `this._components` (name → model, insertion
order), the scene root's component children, and the allocation counter. -/
structure St where
  components : List (String × Node)
  sceneChildren : List Nat
  nextId : Nat
deriving DecidableEq, Repr

/-- The state of a freshly constructed `Scene3D` (no components). -/
def emptySt : St := ⟨[], [], 0⟩

/-- `new Ctor()` followed by `model.name = name`: identity transform, automatic
matrix recomposition enabled. -/
def mkNode (i : Nat) (n t : String) : Node := ⟨i, t, n, identity16, defaultTrs, true⟩

/-- Step 2 of `_applySnapshot`: when `props.matrix` is present, copy it into
`model.matrix`, decompose into position/quaternion/scale, and set
`matrixAutoUpdate = false`.  `d` stands for `THREE.Matrix4.decompose`. -/
def applyMatrix (d : Mat16 → Trs) (p : Props) (node : Node) : Node :=
  match p.matrix with
  | none => node
  | some m =>
      { node with matrix := flat16 m, trs := d (flat16 m), matrixAutoUpdate := false }

/-- Processing of one `[name, props]` entry: get-or-create the model (skip
silently when the constructor is unknown), then apply the transform. -/
def processEntry (d : Mat16 → Trs) (st : St) (e : String × Props) : St :=
  match alookup st.components e.1 with
  | some _ =>
      { st with components := aupdate (applyMatrix d e.2) e.1 st.components }
  | none =>
      if registered e.2.type then
        let node := applyMatrix d e.2 (mkNode st.nextId e.1 e.2.type)
        { components := st.components ++ [(e.1, node)],
          sceneChildren := st.sceneChildren ++ [st.nextId],
          nextId := st.nextId + 1 }
      else st

/-- The final removal loop: every model whose name is not among the seen names
is detached from its parent (the scene root) and deleted from the index. -/
def removePhase (st : St) (names : List String) : St :=
  let removed :=
    (st.components.filter (fun e => e.1 ∉ names)).map (fun e => e.2.nodeId)
  { st with
    components := st.components.filter (fun e => e.1 ∈ names),
    sceneChildren := st.sceneChildren.filter (fun i => i ∉ removed) }

/-- `Scene3D._applySnapshot(data)` of `src/unnamed/part_004`: process every
entry in order (`seenNames` collects every key of `data`, including skipped
ones), then remove models no longer in the backend. -/
def applySnapshot (d : Mat16 → Trs) (st : St) (data : List (String × Props)) : St :=
  removePhase (data.foldl (processEntry d) st) (keysOf data)

end Snap

namespace SceneJS

/-! ### `SceneJS`: the definition-based scene of `src/frontend/scene/scene.js`

`buildFromDefinition` clears the index (detaching every model from its
parent), nulls the selection, then creates one group per component —
`component_type === 'joint'` selects the `Joint` constructor, every other type
falls back to a plain `THREE.Group` with an `AxesHelper`, and a CAD reference
schedules an asynchronous `loadModelBody`.  `updateFromState` looks nodes up
by id, skipping unknown ids, and applies only the absolute matrix.
`setPicking` suppresses the pick when the pointer moved more than 5 px
between press and release. -/
/-- The fields of a component read by `buildFromDefinition`
(`{ id, component_type, cad_file, cad_body }`). -/
structure ComponentDef where
  id : String
  component_type : String
  cad_file : Option String
  cad_body : Option String
deriving DecidableEq, Repr

/-- A scene definition `{ components: [...] }`. -/
structure Definition where
  components : List ComponentDef
deriving DecidableEq, Repr

/-- A live `THREE.Group` owned by the scene: identity, constructor used,
pending asset load, and the THREE transform slots. -/
structure NodeJS where
  nodeId : Nat
  name : String
  isJoint : Bool
  hasAxesHelper : Bool
  pendingAsset : Bool
  matrix : Mat16
  trs : Trs
  matrixAutoUpdate : Bool
deriving DecidableEq, Repr

/-- `Scene3D` state: `this._components` (id → group), the scene root's
component children, `this._selectedId`, and the allocation counter. -/
structure St where
  components : List (String × NodeJS)
  sceneChildren : List Nat
  selectedId : Option String
  nextId : Nat
deriving DecidableEq, Repr

/-- A freshly constructed `Scene3D`. -/
def emptySt : St := ⟨[], [], none, 0⟩

/-- The group constructed for one component: `Joint` when
`component_type === 'joint'`, otherwise a plain group with an `AxesHelper`;
a CAD reference schedules an asynchronous asset load. -/
def mkNodeJS (i : Nat) (c : ComponentDef) : NodeJS :=
  { nodeId := i, name := c.id,
    isJoint := c.component_type == "joint",
    hasAxesHelper := !(c.component_type == "joint"),
    pendingAsset := truthyStr c.cad_file && truthyStr c.cad_body,
    matrix := identity16, trs := defaultTrs, matrixAutoUpdate := true }

/-- The creation body of `buildFromDefinition`'s loop: construct the group,
store it under its id and add it to the scene root. -/
def createComponent (s : St) (c : ComponentDef) : St :=
  { s with components := aset s.components c.id (mkNodeJS s.nextId c),
           sceneChildren := s.sceneChildren ++ [s.nextId],
           nextId := s.nextId + 1 }

/-- `Scene3D.buildFromDefinition(definition)`: clear every existing component
(detaching it from its parent), null the selection, then create one node per
component of the definition. -/
def buildFromDefinition (st : St) (defn : Definition) : St :=
  let oldIds := st.components.map (fun e => e.2.nodeId)
  let cleared : St :=
    { components := [],
      sceneChildren := st.sceneChildren.filter (fun i => i ∉ oldIds),
      selectedId := none,
      nextId := st.nextId }
  defn.components.foldl createComponent cleared

/-- One entry of a `state_update` message: `{ id, matrix? }` with the matrix a
flat row-major array of 16 numbers. -/
structure StateEntry where
  id : String
  matrix : Option (List ℚ)
deriving DecidableEq, Repr

/-- The sixteen indexed reads `matrix[0] … matrix[15]` passed to
`Matrix4.set` by `updateFromState`. -/
def readMat16 (m : List ℚ) : Mat16 := (List.range 16).map (fun i => m.getD i 0)

/-- Copy the absolute world matrix, decompose it, and freeze automatic matrix
recomposition. -/
def applyAbsMatrix (d : Mat16 → Trs) (m : List ℚ) (node : NodeJS) : NodeJS :=
  { node with matrix := readMat16 m, trs := d (readMat16 m),
              matrixAutoUpdate := false }

/-- One iteration of `updateFromState`'s loop: unknown ids are logged and
skipped; known ids receive the absolute matrix when present. -/
def updateEntry (d : Mat16 → Trs) (s : St) (e : StateEntry) : St :=
  match alookup s.components e.id with
  | none => s
  | some _ =>
      match e.matrix with
      | none => s
      | some m =>
          { s with components := aupdate (applyAbsMatrix d m) e.id s.components }

/-- `Scene3D.updateFromState(update)`. -/
def updateFromState (d : Mat16 → Trs) (st : St) (u : List StateEntry) : St :=
  u.foldl (updateEntry d) st

/-- `pointerdown` handler of `setPicking`: record the press position. -/
def onPointerDown (_s : Option (Int × Int)) (x y : Int) : Option (Int × Int) :=
  some (x, y)

/-- `pointerup` handler of `setPicking`: with no recorded press do nothing;
otherwise clear the press and attempt the ray pick only when the squared
pointer travel is within the 5 px drag threshold (`dx*dx + dy*dy > 25`).
The returned flag says whether the raycast pick attempt runs. -/
def onPointerUp (s : Option (Int × Int)) (x y : Int) :
    Option (Int × Int) × Bool :=
  match s with
  | none => (none, false)
  | some (x0, y0) =>
      let dx := x - x0
      let dy := y - y0
      if dx * dx + dy * dy > 25 then (none, false) else (none, true)

/-- The ids `nextId, nextId+1, …` allocated for `k` created components. -/
def freshIds : Nat → Nat → List Nat
  | _, 0 => []
  | a, k + 1 => a :: freshIds (a + 1) k

end SceneJS

namespace Tree

/-! ### `Tree`: the hierarchy builder of `src/frontend/panels/scene_tree.js`

`mountSceneTree` builds a parent→children adjacency map (`buildHierarchy`
pushes a component under its parent only when the parent id resolves), picks
roots with `components.filter(c => !c.parent)`, and renders each root's
subtree recursively. -/
/-- A component as read by the tree builder: `id` and `parent` drive hierarchy
and root selection. -/
structure CompT where
  id : String
  parent : Option String
deriving DecidableEq, Repr

/-- The ids present in the flat list (the keys of `hierarchy`). -/
def idsOf (comps : List CompT) : List String := comps.map (fun c => c.id)

/-- The children pushed under hierarchy entry `pid` by `buildHierarchy`:
components with a truthy parent equal to `pid`, provided `pid` is itself a
hierarchy key (`hierarchy.has(comp.parent)`), in list order. -/
def childrenOf (comps : List CompT) (pid : String) : List String :=
  if pid ∈ idsOf comps then
    (comps.filter (fun c => truthyStr c.parent && decide (c.parent = some pid))).map
      (fun c => c.id)
  else []

/-- `const roots = sceneDefinition.components.filter(c => !c.parent)`. -/
def rootsOf (comps : List CompT) : List CompT :=
  comps.filter (fun c => !(truthyStr c.parent))

/-- The ids rendered below (and including) node `nid` by the recursive
`buildNode`.  The fuel bounds the recursion; on the forest reachable from the
roots the depth never exceeds the component count, so the fuel used by
`renderedIds` is never exhausted. -/
def subtreeIds (comps : List CompT) : Nat → String → List String
  | 0, _ => []
  | fuel + 1, nid =>
      nid :: (childrenOf comps nid).flatMap (subtreeIds comps fuel)

/-- Every component id rendered into the mounted tree: the roots and their
recursive children. -/
def renderedIds (comps : List CompT) : List String :=
  (rootsOf comps).flatMap (fun r => subtreeIds comps (comps.length + 1) r.id)

end Tree

namespace Details

/-! ### `Details`: jog joint discovery of `src/frontend/panels/details_panel.js` -/
/-- A component as read by the details panel's jog logic. -/
structure CompD where
  id : String
  component_type : String
  parent : Option String
deriving DecidableEq, Repr

/-- The loop of `_getRobotJoints`, fuel-bounded: the source's `while (true)`
ends when no joint's parent matches the running id.  Any terminating run
visits pairwise-distinct joints, so the `components.length + 1` fuel used by
`getRobotJoints` is never exhausted on terminating inputs (the source does not
defend against cyclic parent data, where it would not terminate). -/
def getRobotJointsAux (allJoints : List CompD) : String → Nat → List CompD
  | _, 0 => []
  | pid, fuel + 1 =>
      match allJoints.find? (fun c => decide (c.parent = some pid)) with
      | none => []
      | some j => j :: getRobotJointsAux allJoints j.id fuel

/-- `_getRobotJoints(robot)`: filter the joints, then follow the chained
parent→child structure from the robot's id, collecting joints root to tip. -/
def getRobotJoints (components : List CompD) (robot : CompD) : List CompD :=
  getRobotJointsAux (components.filter (fun c => decide (c.component_type = "joint")))
    robot.id (components.length + 1)

/-- `isChain js pid chain`: `chain` is exactly the joint chain starting at
parent id `pid` — each link is the unique element of `js` whose parent is the
previous link's id (or `pid` for the first), and nothing continues past the
last link. -/
def isChain (js : List CompD) : String → List CompD → Bool
  | pid, [] => js.all (fun c => !(decide (c.parent = some pid)))
  | pid, j :: rest =>
      decide (j ∈ js) && decide (j.parent = some pid) &&
        js.all (fun c => !(decide (c.parent = some pid)) || decide (c = j)) &&
        isChain js j.id rest

end Details

namespace Assets

/-! ### `Assets`: GLB body extraction and the module-level model cache of
`src/frontend/scene/scene.js` -/
/-- A loaded 3D object tree (`THREE.Object3D`): name, mesh flag, material
color, geometry box size, children. -/
inductive Obj where
  | node (name : String) (isMesh : Bool) (color : Nat) (size : Vec3)
      (children : List Obj)

/-- `child.name`. -/
def Obj.nameOf : Obj → String
  | .node n _ _ _ _ => n

mutual

/-- `model.traverse(cb)` visit order: the object itself, then each child's
subtree depth-first. -/
def Obj.preorder : Obj → List Obj
  | .node n m c s cs => .node n m c s cs :: preorderList cs

def preorderList : List Obj → List Obj
  | [] => []
  | o :: os => o.preorder ++ preorderList os

end

/-- The `traverse` loop of `loadModelBody` reassigns `body = child` on every
name match, so the hit surviving the loop is the last match in visit order. -/
def findBody (model : Obj) (bodyName : String) : Option Obj :=
  model.preorder.foldl
    (fun acc o => if o.nameOf = bodyName then some o else acc) none

/-- The placeholder substituted for a missing body:
`new THREE.Mesh(BoxGeometry(0.1, 0.2, 0.1), material color 0xff00ff)`. -/
def placeholderMesh : Obj :=
  .node "" true 0xff00ff ⟨1/10, 1/5, 1/10⟩ []

/-- `body.clone()` with per-mesh material cloning: value-level structure is
preserved (material cloning only changes aliasing, which values don't track). -/
def cloneBody (b : Obj) : Obj := b

/-- Body lookup of `loadModelBody` after the model resolved. -/
def extractBody (model : Obj) (bodyName : String) : Obj :=
  match findBody model bodyName with
  | none => placeholderMesh
  | some b => cloneBody b

/-- `loadModelBody` after the awaited cached load settles: a load failure
rethrows to the caller; a successful load always resolves, substituting the
placeholder when the body name is absent. -/
def loadModelBody (loadResult : Except String Obj) (bodyName : String) :
    Except String Obj :=
  match loadResult with
  | .error e => .error e
  | .ok m => .ok (extractBody m bodyName)

/-- The module-level `modelCache`: file path → the promise of its GLB load.
The promise is stored synchronously before any await, so a failed load stays
cached ( its settled outcome is recorded here).  `loadLog` records each
`gltfLoader.load` actually started, in order. -/
structure CacheSt where
  modelCache : List (String × Except String Obj)
  loadLog : List String

/-- The cache at session start. -/
def emptyCache : CacheSt := ⟨[], []⟩

/-- The caching prefix of `loadModelBody`: reuse the cached promise when the
path is present, otherwise start one `gltfLoader.load` and cache its promise.
`loader` gives each path's load outcome for this session. -/
def cachedLoad (loader : String → Except String Obj) (st : CacheSt)
    (filePath : String) : Except String Obj × CacheSt :=
  match alookup st.modelCache filePath with
  | some r => (r, st)
  | none =>
      (loader filePath,
        ⟨st.modelCache ++ [(filePath, loader filePath)],
         st.loadLog ++ [filePath]⟩)

/-- One full `loadModelBody(modelFile, bodyName)` call, including the
`/static/assets/` path prefix. -/
def loadModelBodyCall (loader : String → Except String Obj) (st : CacheSt)
    (modelFile bodyName : String) : Except String Obj × CacheSt :=
  let res := cachedLoad loader st ("/static/assets/" ++ modelFile)
  (loadModelBody res.1 bodyName, res.2)

/-- A session: a sequence of `loadModelBody` calls sharing the module cache. -/
def runCalls (loader : String → Except String Obj) :
    CacheSt → List (String × String) → List (Except String Obj) × CacheSt
  | st, [] => ([], st)
  | st, (f, b) :: rest =>
      let one := loadModelBodyCall loader st f b
      let more := runCalls loader one.2 rest
      (one.1 :: more.1, more.2)

end Assets

/-! Concrete inputs for counterexamples and witnesses. -/
/-- Snapshot 1 of the C1 counterexample: `a` arrives with registered type
`Joint`. -/
def cexS1 : List (String × Snap.Props) := [("a", ⟨"Joint", none⟩)]

/-- Snapshot 2 of the C1 counterexample: `a` now carries the unregistered
type `Mystery`. -/
def cexS2 : List (String × Snap.Props) := [("a", ⟨"Mystery", none⟩)]

/-- Two-component snapshot pair used by the C1 witness: `b` is live after S1
and absent from S2. -/
def wS1 : List (String × Snap.Props) :=
  [("a", ⟨"Joint", none⟩), ("b", ⟨"Link", none⟩)]

/-- Second snapshot of the C1 witness. -/
def wS2 : List (String × Snap.Props) := [("a", ⟨"Joint", none⟩)]

/-- Snapshot used by the C2 witness: one plain component and one carrying an
absolute matrix. -/
def wSnap : List (String × Snap.Props) :=
  [("base", ⟨"AxisBase", none⟩),
   ("rotor", ⟨"AxisRotor", some [[1,0,0,0],[0,1,0,0],[0,0,1,0],[0,0,0,1]]⟩)]

/-- Snapshot used by the C3 witness: one registered and one unregistered
component type. -/
def wSkip : List (String × Snap.Props) :=
  [("ok", ⟨"Joint", none⟩), ("widget", ⟨"Widget", none⟩)]

/-- C3 counterexample input: a definition with a single component whose type
has no constructor in the model registry. -/
def defnMystery : SceneJS.Definition := ⟨[⟨"x", "mystery", none, none⟩]⟩

/-- A live node used in the C4/C5 witness state. -/
def wNode : SceneJS.NodeJS :=
  { nodeId := 0, name := "axis", isJoint := false, hasAxesHelper := true,
    pendingAsset := false, matrix := identity16, trs := defaultTrs,
    matrixAutoUpdate := true }

/-- A scene state with one live component, used by the C4/C5 witnesses. -/
def wScene : SceneJS.St := ⟨[("axis", wNode)], [0], none, 1⟩

/-- A state update referencing an unknown id, used by the C4 witness. -/
def wUpdate : List SceneJS.StateEntry :=
  [⟨"ghost", some [1,0,0,0, 0,1,0,0, 0,0,1,0, 0,0,0,1]⟩]

/-- A two-component definition used by the C5 witness. -/
def wDefn : SceneJS.Definition :=
  ⟨[⟨"robot", "serial_robot", some "robot.glb", some "Body"⟩,
    ⟨"j1", "joint", none, none⟩]⟩

/-- The robot and joints of the C7 witness chain. -/
def wRobot : Details.CompD := ⟨"R", "serial_robot", none⟩

/-- First joint of the C7 witness chain (parent: the robot). -/
def wJ1 : Details.CompD := ⟨"J1", "joint", some "R"⟩

/-- Second joint of the C7 witness chain (parent: the first joint). -/
def wJ2 : Details.CompD := ⟨"J2", "joint", some "J1"⟩

/-- C8 counterexample input: one root and one component whose parent id does
not occur in the list. -/
def cexTreeComps : List Tree.CompT := [⟨"a", none⟩, ⟨"b", some "ghost"⟩]

/-- C8 witness input: a root and its resolvable child. -/
def wTreeComps : List Tree.CompT := [⟨"a", none⟩, ⟨"b", some "a"⟩]

/-- A loaded asset with bodies named `Scene` and `Body`, used by the C9
witness. -/
def wModel : Assets.Obj :=
  .node "Scene" false 0 ⟨0, 0, 0⟩ [.node "Body" true 255 ⟨1, 1, 1⟩ []]

/-! ### Theorems -/

theorem alookup_cons {β : Type} (k : String) (v : β) (l : List (String × β))
    (n : String) :
    alookup ((k, v) :: l) n = if k = n then some v else alookup l n := rfl

theorem keysOf_nil {β : Type} : keysOf ([] : List (String × β)) = [] := rfl

theorem keysOf_cons {β : Type} (e : String × β) (l : List (String × β)) :
    keysOf (e :: l) = e.1 :: keysOf l := rfl

theorem keysOf_append {β : Type} (l₁ l₂ : List (String × β)) :
    keysOf (l₁ ++ l₂) = keysOf l₁ ++ keysOf l₂ := by
  simp [keysOf]

theorem mem_keysOf {β : Type} {l : List (String × β)} {n : String} :
    n ∈ keysOf l ↔ ∃ v, (n, v) ∈ l := by
  induction l with
  | nil => simp [keysOf]
  | cons e rest ih =>
    obtain ⟨k, v⟩ := e
    simp only [keysOf, List.map_cons, List.mem_cons] at *
    constructor
    · rintro (h | h)
      · exact ⟨v, Or.inl (by simp [h])⟩
      · obtain ⟨w, hw⟩ := ih.mp h
        exact ⟨w, Or.inr hw⟩
    · rintro ⟨w, (h | h)⟩
      · left
        cases h
        rfl
      · right
        exact ih.mpr ⟨w, h⟩

theorem alookup_eq_none {β : Type} {l : List (String × β)} {n : String} :
    alookup l n = none ↔ n ∉ keysOf l := by
  induction l with
  | nil => simp [alookup, keysOf]
  | cons e rest ih =>
    obtain ⟨k, v⟩ := e
    by_cases h : k = n
    · subst h
      simp [alookup, keysOf]
    · simp [alookup, keysOf, h, ih, Ne.symm h]

theorem alookup_isSome {β : Type} {l : List (String × β)} {n : String} :
    (alookup l n).isSome ↔ n ∈ keysOf l := by
  rcases h : alookup l n with _ | v
  · simp [alookup_eq_none.mp h]
  · simp only [Option.isSome_some, true_iff]
    by_contra hn
    rw [alookup_eq_none.mpr hn] at h
    cases h

theorem alookup_mem {β : Type} {l : List (String × β)} {n : String} {v : β}
    (h : alookup l n = some v) : (n, v) ∈ l := by
  induction l with
  | nil => cases h
  | cons e rest ih =>
    obtain ⟨k, w⟩ := e
    by_cases hk : k = n
    · subst hk
      rw [alookup_cons, if_pos rfl] at h
      cases h
      exact List.mem_cons_self _ _
    · rw [alookup_cons, if_neg hk] at h
      exact List.mem_cons_of_mem _ (ih h)

theorem alookup_of_mem_nodup {β : Type} {l : List (String × β)} {n : String}
    {v : β} (hnd : (keysOf l).Nodup) (h : (n, v) ∈ l) : alookup l n = some v := by
  induction l with
  | nil => cases h
  | cons e rest ih =>
    obtain ⟨k, w⟩ := e
    simp only [keysOf, List.map_cons, List.nodup_cons] at hnd
    rcases List.mem_cons.mp h with h1 | h1
    · cases h1
      simp [alookup]
    · have hne : k ≠ n := by
        intro hkn
        subst hkn
        exact hnd.1 (mem_keysOf.mpr ⟨v, h1⟩)
      simp only [alookup, if_neg hne]
      exact ih hnd.2 h1

theorem alookup_append_single_ne {β : Type} {l : List (String × β)}
    {n m : String} {v : β} (h : n ≠ m) :
    alookup (l ++ [(m, v)]) n = alookup l n := by
  induction l with
  | nil => simp [alookup, Ne.symm h]
  | cons e rest ih =>
    obtain ⟨k, w⟩ := e
    by_cases hk : k = n
    · simp [alookup, hk]
    · simp [alookup, hk, ih]

theorem alookup_append_self {β : Type} {l : List (String × β)} {n : String}
    {v : β} (h : n ∉ keysOf l) : alookup (l ++ [(n, v)]) n = some v := by
  induction l with
  | nil => simp [alookup]
  | cons e rest ih =>
    obtain ⟨k, w⟩ := e
    simp only [keysOf, List.map_cons, List.mem_cons] at h
    push_neg at h
    rw [List.cons_append, alookup_cons, if_neg (Ne.symm h.1)]
    exact ih h.2

theorem alookup_aupdate_self {β : Type} (f : β → β) (n : String)
    (l : List (String × β)) :
    alookup (aupdate f n l) n = (alookup l n).map f := by
  induction l with
  | nil => simp [alookup, aupdate]
  | cons e rest ih =>
    obtain ⟨k, w⟩ := e
    by_cases hk : k = n
    · subst hk
      simp [alookup, aupdate]
    · simp [alookup, aupdate, hk, ih]

theorem alookup_aupdate_ne {β : Type} (f : β → β) {n m : String}
    (l : List (String × β)) (h : m ≠ n) :
    alookup (aupdate f n l) m = alookup l m := by
  induction l with
  | nil => simp [alookup, aupdate]
  | cons e rest ih =>
    obtain ⟨k, w⟩ := e
    by_cases hk : k = n
    · subst hk
      simp [alookup, aupdate, Ne.symm h, ih]
    · by_cases hm : k = m
      · subst hm
        simp [alookup, aupdate, hk, ih]
      · simp [alookup, aupdate, hk, hm, ih]

theorem keysOf_aupdate {β : Type} (f : β → β) (n : String)
    (l : List (String × β)) : keysOf (aupdate f n l) = keysOf l := by
  induction l with
  | nil => rfl
  | cons e rest ih =>
    obtain ⟨k, w⟩ := e
    by_cases hk : k = n
    · subst hk
      simpa [keysOf, aupdate] using ih
    · simpa [keysOf, aupdate, hk] using ih

theorem aupdate_eq_self {β : Type} {f : β → β} {n : String}
    {l : List (String × β)} (h : ∀ v, (n, v) ∈ l → f v = v) :
    aupdate f n l = l := by
  induction l with
  | nil => rfl
  | cons e rest ih =>
    obtain ⟨k, w⟩ := e
    have hrest : aupdate f n rest = rest :=
      ih (fun v hv => h v (List.mem_cons_of_mem _ hv))
    by_cases hk : k = n
    · subst hk
      have he : f w = w := h w (List.mem_cons_self _ _)
      simpa [aupdate, he] using hrest
    · simpa [aupdate, hk] using hrest

theorem aupdate_cons {β : Type} (f : β → β) (n k : String) (v : β)
    (l : List (String × β)) :
    aupdate f n ((k, v) :: l) =
      if k = n then (k, f v) :: aupdate f n l else (k, v) :: aupdate f n l := rfl

theorem mem_aupdate {β : Type} {f : β → β} {n : String} {l : List (String × β)}
    {e : String × β} (h : e ∈ aupdate f n l) :
    e ∈ l ∨ ∃ v, (n, v) ∈ l ∧ e = (n, f v) := by
  induction l with
  | nil => cases h
  | cons a rest ih =>
    obtain ⟨k, w⟩ := a
    by_cases hk : k = n
    · subst hk
      rw [aupdate_cons, if_pos rfl] at h
      rcases List.mem_cons.mp h with h | h
      · exact Or.inr ⟨w, List.mem_cons_self _ _, h⟩
      · rcases ih h with h1 | ⟨v, hv, he⟩
        · exact Or.inl (List.mem_cons_of_mem _ h1)
        · exact Or.inr ⟨v, List.mem_cons_of_mem _ hv, he⟩
    · rw [aupdate_cons, if_neg hk] at h
      rcases List.mem_cons.mp h with h | h
      · left
        rw [h]
        exact List.mem_cons_self _ _
      · rcases ih h with h1 | ⟨v, hv, he⟩
        · exact Or.inl (List.mem_cons_of_mem _ h1)
        · exact Or.inr ⟨v, List.mem_cons_of_mem _ hv, he⟩

namespace Snap

/-! Structural lemmas about one processing step, the processing fold and the
removal phase. -/
theorem applyMatrix_nodeId (d : Mat16 → Trs) (p : Props) (x : Node) :
    (applyMatrix d p x).nodeId = x.nodeId := by
  cases h : p.matrix <;> simp [applyMatrix, h]

theorem applyMatrix_typeTag (d : Mat16 → Trs) (p : Props) (x : Node) :
    (applyMatrix d p x).typeTag = x.typeTag := by
  cases h : p.matrix <;> simp [applyMatrix, h]

theorem applyMatrix_name (d : Mat16 → Trs) (p : Props) (x : Node) :
    (applyMatrix d p x).name = x.name := by
  cases h : p.matrix <;> simp [applyMatrix, h]

theorem applyMatrix_idem (d : Mat16 → Trs) (p : Props) (x : Node) :
    applyMatrix d p (applyMatrix d p x) = applyMatrix d p x := by
  cases h : p.matrix <;> simp [applyMatrix, h]

/-- Branch equation: the name is already live, so the model is only updated. -/
theorem processEntry_update {d : Mat16 → Trs} {st : St} {e : String × Props}
    {x : Node} (h : alookup st.components e.1 = some x) :
    processEntry d st e =
      { st with components := aupdate (applyMatrix d e.2) e.1 st.components } := by
  unfold processEntry
  rw [h]

/-- Branch equation: unknown name with a registered constructor is created,
added to the scene root, and receives its transform. -/
theorem processEntry_create {d : Mat16 → Trs} {st : St} {e : String × Props}
    (h : alookup st.components e.1 = none) (hr : registered e.2.type = true) :
    processEntry d st e =
      { components :=
          st.components ++ [(e.1, applyMatrix d e.2 (mkNode st.nextId e.1 e.2.type))],
        sceneChildren := st.sceneChildren ++ [st.nextId],
        nextId := st.nextId + 1 } := by
  unfold processEntry
  rw [h]
  show (if registered e.2.type = true then _ else st) = _
  rw [if_pos hr]

/-- Branch equation: unknown name with an unregistered type is skipped
silently (`if (!Ctor) continue`). -/
theorem processEntry_skip {d : Mat16 → Trs} {st : St} {e : String × Props}
    (h : alookup st.components e.1 = none) (hr : registered e.2.type = false) :
    processEntry d st e = st := by
  unfold processEntry
  rw [h]
  show (if registered e.2.type = true then _ else st) = st
  rw [if_neg (by simp [hr])]

theorem mem_keys_processEntry {d : Mat16 → Trs} {st : St} {e : String × Props}
    {n : String} :
    n ∈ keysOf (processEntry d st e).components ↔
      n ∈ keysOf st.components ∨ (n = e.1 ∧ registered e.2.type = true) := by
  rcases hl : alookup st.components e.1 with _ | x
  · by_cases hr : registered e.2.type
    · rw [processEntry_create hl hr]
      simp only [keysOf_append]
      constructor
      · intro h
        rcases List.mem_append.mp h with h | h
        · exact Or.inl h
        · simp only [keysOf, List.map_cons, List.map_nil, List.mem_singleton] at h
          exact Or.inr ⟨h, hr⟩
      · rintro (h | ⟨h, _⟩)
        · exact List.mem_append.mpr (Or.inl h)
        · subst h
          exact List.mem_append.mpr (Or.inr (by simp [keysOf]))
    · simp only [Bool.not_eq_true] at hr
      rw [processEntry_skip hl hr]
      simp [hr]
  · rw [processEntry_update hl]
    simp only [keysOf_aupdate]
    constructor
    · exact Or.inl
    · rintro (h | ⟨h, _⟩)
      · exact h
      · subst h
        exact alookup_isSome.mp (by simp [hl])

theorem mem_keys_fold {d : Mat16 → Trs} {data : List (String × Props)}
    {st : St} {n : String} :
    n ∈ keysOf (data.foldl (processEntry d) st).components ↔
      n ∈ keysOf st.components ∨ ∃ p, (n, p) ∈ data ∧ registered p.type = true := by
  induction data generalizing st with
  | nil => simp
  | cons e rest ih =>
    simp only [List.foldl_cons]
    rw [ih, mem_keys_processEntry]
    constructor
    · rintro ((h | ⟨h1, h2⟩) | ⟨p, hp, hr⟩)
      · exact Or.inl h
      · subst h1
        exact Or.inr ⟨e.2, List.mem_cons_self _ _, h2⟩
      · exact Or.inr ⟨p, List.mem_cons_of_mem _ hp, hr⟩
    · rintro (h | ⟨p, hp, hr⟩)
      · exact Or.inl (Or.inl h)
      · rcases List.mem_cons.mp hp with h1 | h1
        · have : n = e.1 ∧ p = e.2 := Prod.mk.injEq _ _ _ _ ▸ h1
          exact Or.inl (Or.inr ⟨this.1, this.2 ▸ hr⟩)
        · exact Or.inr ⟨p, h1, hr⟩

theorem nodup_keys_processEntry {d : Mat16 → Trs} {st : St} {e : String × Props}
    (h : (keysOf st.components).Nodup) :
    (keysOf (processEntry d st e).components).Nodup := by
  rcases hl : alookup st.components e.1 with _ | x
  · by_cases hr : registered e.2.type
    · rw [processEntry_create hl hr]
      have hnot : e.1 ∉ keysOf st.components := alookup_eq_none.mp hl
      simp only [keysOf_append, List.nodup_append]
      refine ⟨h, by simp [keysOf], ?_⟩
      intro a ha hb
      simp only [keysOf, List.map_cons, List.map_nil, List.mem_singleton] at hb
      subst hb
      exact hnot ha
    · simp only [Bool.not_eq_true] at hr
      rw [processEntry_skip hl hr]
      exact h
  · rw [processEntry_update hl]
    simpa [keysOf_aupdate] using h

theorem nodup_keys_fold {d : Mat16 → Trs} {data : List (String × Props)}
    {st : St} (h : (keysOf st.components).Nodup) :
    (keysOf ((data.foldl (processEntry d) st)).components).Nodup := by
  induction data generalizing st with
  | nil => exact h
  | cons e rest ih =>
    exact ih (nodup_keys_processEntry h)

theorem alookup_processEntry_ne {d : Mat16 → Trs} {st : St} {e : String × Props}
    {n : String} (h : n ≠ e.1) :
    alookup (processEntry d st e).components n = alookup st.components n := by
  rcases hl : alookup st.components e.1 with _ | x
  · by_cases hr : registered e.2.type
    · rw [processEntry_create hl hr]
      exact alookup_append_single_ne h
    · simp only [Bool.not_eq_true] at hr
      rw [processEntry_skip hl hr]
  · rw [processEntry_update hl]
    exact alookup_aupdate_ne _ _ h

theorem alookup_fold_notmem {d : Mat16 → Trs} {data : List (String × Props)}
    {st : St} {n : String} (h : n ∉ keysOf data) :
    alookup (data.foldl (processEntry d) st).components n =
      alookup st.components n := by
  induction data generalizing st with
  | nil => rfl
  | cons e rest ih =>
    simp only [keysOf_cons, List.mem_cons] at h
    push_neg at h
    simp only [List.foldl_cons]
    rw [ih h.2, alookup_processEntry_ne h.1]

theorem fold_lookup_preserved {d : Mat16 → Trs} {data : List (String × Props)}
    {st : St} {n : String} {x : Node} (h : alookup st.components n = some x) :
    ∃ y, alookup (data.foldl (processEntry d) st).components n = some y ∧
      y.nodeId = x.nodeId ∧ y.typeTag = x.typeTag ∧ y.name = x.name := by
  induction data generalizing st x with
  | nil => exact ⟨x, h, rfl, rfl, rfl⟩
  | cons e rest ih =>
    simp only [List.foldl_cons]
    by_cases he : n = e.1
    · have hstep :
          alookup (processEntry d st e).components n =
            some (applyMatrix d e.2 x) := by
        rw [processEntry_update (he ▸ h), ← he, alookup_aupdate_self, h]
        rfl
      obtain ⟨y, hy, h1, h2, h3⟩ := ih hstep
      exact ⟨y, hy, by rw [h1, applyMatrix_nodeId], by rw [h2, applyMatrix_typeTag],
        by rw [h3, applyMatrix_name]⟩
    · have hstep : alookup (processEntry d st e).components n = some x := by
        rw [alookup_processEntry_ne he, h]
      exact ih hstep

theorem fold_lookup_applyMatrix {d : Mat16 → Trs} {data : List (String × Props)}
    {st : St} {n : String} {p : Props} (hnd : (keysOf data).Nodup)
    (hp : (n, p) ∈ data) :
    (∃ x, alookup (data.foldl (processEntry d) st).components n =
        some (applyMatrix d p x)) ∨
      (alookup (data.foldl (processEntry d) st).components n = none ∧
        registered p.type = false) := by
  induction data generalizing st with
  | nil => cases hp
  | cons e rest ih =>
    simp only [keysOf_cons, List.nodup_cons] at hnd
    simp only [List.foldl_cons]
    rcases List.mem_cons.mp hp with h1 | h1
    · subst h1
      have hnot : n ∉ keysOf rest := hnd.1
      rw [alookup_fold_notmem hnot]
      rcases hl : alookup st.components n with _ | x
      · by_cases hr : registered p.type
        · left
          refine ⟨mkNode st.nextId n p.type, ?_⟩
          rw [processEntry_create hl hr]
          exact alookup_append_self (alookup_eq_none.mp hl)
        · right
          simp only [Bool.not_eq_true] at hr
          rw [processEntry_skip hl hr]
          exact ⟨hl, hr⟩
      · left
        refine ⟨x, ?_⟩
        rw [processEntry_update hl, alookup_aupdate_self, hl]
        rfl
    · exact ih hnd.2 h1

/-! Removal-phase lemmas.  The removal loop of `_applySnapshot` keeps exactly
the components whose name was seen, and drops the removed models' ids from the
scene root's children. -/
theorem alookup_filter_keys {β : Type} (l : List (String × β))
    (names : List String) (n : String) :
    alookup (l.filter (fun e => e.1 ∈ names)) n =
      if n ∈ names then alookup l n else none := by
  induction l with
  | nil => simp [alookup]
  | cons e rest ih =>
    obtain ⟨k, v⟩ := e
    by_cases hk : k ∈ names
    · rw [List.filter_cons_of_pos (by simpa using hk)]
      by_cases hn : k = n
      · subst hn
        simp [alookup_cons, hk, ih]
      · simp only [alookup_cons, if_neg hn, ih]
    · rw [List.filter_cons_of_neg (by simpa using hk)]
      by_cases hn : k = n
      · subst hn
        simp [ih, alookup_cons, hk]
      · simp only [ih, alookup_cons, if_neg hn]

theorem alookup_removePhase (st : St) (names : List String) (n : String) :
    alookup (removePhase st names).components n =
      if n ∈ names then alookup st.components n else none :=
  alookup_filter_keys st.components names n

theorem mem_keys_removePhase {st : St} {names : List String} {n : String} :
    n ∈ keysOf (removePhase st names).components ↔
      n ∈ keysOf st.components ∧ n ∈ names := by
  rw [← alookup_isSome, alookup_removePhase]
  by_cases h : n ∈ names
  · simp [h, alookup_isSome]
  · simp [h]

theorem nodup_keys_removePhase {st : St} {names : List String}
    (h : (keysOf st.components).Nodup) :
    (keysOf (removePhase st names).components).Nodup := by
  unfold removePhase keysOf
  exact h.sublist (List.Sublist.map _ (List.filter_sublist _))

theorem mem_keys_applySnapshot {d : Mat16 → Trs} {st : St}
    {data : List (String × Props)} {n : String} :
    n ∈ keysOf (applySnapshot d st data).components ↔
      n ∈ keysOf data ∧
        (n ∈ keysOf st.components ∨ ∃ p, (n, p) ∈ data ∧ registered p.type = true) := by
  unfold applySnapshot
  rw [mem_keys_removePhase, mem_keys_fold]
  exact and_comm

theorem nodup_keys_applySnapshot {d : Mat16 → Trs} {st : St}
    {data : List (String × Props)} (h : (keysOf st.components).Nodup) :
    (keysOf (applySnapshot d st data).components).Nodup :=
  nodup_keys_removePhase (nodup_keys_fold h)

theorem applySnapshot_def (d : Mat16 → Trs) (st : St)
    (data : List (String × Props)) :
    applySnapshot d st data =
      removePhase (data.foldl (processEntry d) st) (keysOf data) := rfl

theorem removePhase_components (st : St) (names : List String) :
    (removePhase st names).components =
      st.components.filter (fun e => e.1 ∈ names) := rfl

theorem removePhase_sceneChildren (st : St) (names : List String) :
    (removePhase st names).sceneChildren =
      st.sceneChildren.filter (fun i =>
        i ∉ (st.components.filter (fun e => e.1 ∉ names)).map
          (fun e => e.2.nodeId)) := rfl

theorem removePhase_eq_self {st : St} {names : List String}
    (h : ∀ e ∈ st.components, e.1 ∈ names) : removePhase st names = st := by
  have h1 : st.components.filter (fun e => e.1 ∈ names) = st.components :=
    List.filter_eq_self.mpr (fun e he => by simpa using h e he)
  have h2 : st.components.filter (fun e => e.1 ∉ names) = [] :=
    List.filter_eq_nil_iff.mpr (fun e he => by simpa using h e he)
  unfold removePhase
  rw [h2, h1]
  simp

theorem fold_noop {d : Mat16 → Trs} {data : List (String × Props)} {st : St}
    (h1 : ∀ e ∈ data, ∀ v, (e.1, v) ∈ st.components → applyMatrix d e.2 v = v)
    (h2 : ∀ e ∈ data, alookup st.components e.1 = none →
      registered e.2.type = false) :
    data.foldl (processEntry d) st = st := by
  induction data with
  | nil => rfl
  | cons e rest ih =>
    have hpe : processEntry d st e = st := by
      rcases hl : alookup st.components e.1 with _ | x
      · exact processEntry_skip hl (h2 e (List.mem_cons_self _ _) hl)
      · rw [processEntry_update hl,
          aupdate_eq_self (fun v hv => h1 e (List.mem_cons_self _ _) v hv)]
    rw [List.foldl_cons, hpe]
    exact ih (fun e he => h1 e (List.mem_cons_of_mem _ he))
      (fun e he => h2 e (List.mem_cons_of_mem _ he))

/-- C2: applying the same snapshot twice in a row via `_applySnapshot` is
idempotent — the whole reconciler state after the second application (node
identities in the index, scene-root attachment, and every node's
position/quaternion/scale/matrix) equals the state after the first. -/
theorem applySnapshot_idem (d : Mat16 → Trs) (S : List (String × Props)) (st : St)
    (hS : (keysOf S).Nodup) (hst : (keysOf st.components).Nodup) :
    applySnapshot d (applySnapshot d st S) S = applySnapshot d st S := by
  have hA : (keysOf (S.foldl (processEntry d) st).components).Nodup :=
    nodup_keys_fold hst
  have hst1 : (keysOf (applySnapshot d st S).components).Nodup :=
    nodup_keys_applySnapshot hst
  have hsub : ∀ e ∈ (applySnapshot d st S).components, e.1 ∈ keysOf S := by
    intro e he
    rw [applySnapshot, removePhase_components] at he
    exact (by simpa using (List.mem_filter.mp he).2)
  have hlook : ∀ n, n ∈ keysOf S →
      alookup (applySnapshot d st S).components n =
        alookup (S.foldl (processEntry d) st).components n := by
    intro n hn
    rw [applySnapshot, alookup_removePhase, if_pos hn]
  have hnoop : S.foldl (processEntry d) (applySnapshot d st S) =
      applySnapshot d st S := by
    apply fold_noop
    · intro e he v hv
      have hnS : e.1 ∈ keysOf S := mem_keysOf.mpr ⟨e.2, by simpa using he⟩
      have hv' : alookup (applySnapshot d st S).components e.1 = some v :=
        alookup_of_mem_nodup hst1 hv
      rw [hlook e.1 hnS] at hv'
      rcases @fold_lookup_applyMatrix d S st e.1 e.2 hS
          (show (e.1, e.2) ∈ S by simpa using he) with ⟨x, hx⟩ | ⟨hnone, _⟩
      · rw [hx] at hv'
        cases hv'
        exact applyMatrix_idem d e.2 x
      · rw [hnone] at hv'
        cases hv'
    · intro e he hnone
      have hnS : e.1 ∈ keysOf S := mem_keysOf.mpr ⟨e.2, by simpa using he⟩
      rw [hlook e.1 hnS] at hnone
      rcases @fold_lookup_applyMatrix d S st e.1 e.2 hS
          (show (e.1, e.2) ∈ S by simpa using he) with ⟨x, hx⟩ | ⟨_, hr⟩
      · rw [hx] at hnone
        cases hnone
      · exact hr
  rw [applySnapshot, hnoop, removePhase_eq_self hsub]

/-- C1 (amended): for snapshots S1 then S2 applied from a fresh scene, the
index after S2 holds exactly the names of S2 that either were live after S1 or
carry a registered type in S2; the index has no duplicate names; names in both
snapshots keep their original node identity; and every name of S1 absent from
S2 is removed from the index and detached from the scene root. -/
theorem applySnapshot_pair_exact_sync (d : Mat16 → Trs)
    (S1 S2 : List (String × Props)) :
    (∀ n, n ∈ keysOf (applySnapshot d emptySt S1).components ↔
        ∃ p, (n, p) ∈ S1 ∧ registered p.type = true)
    ∧ (∀ n, n ∈ keysOf (applySnapshot d (applySnapshot d emptySt S1) S2).components ↔
        n ∈ keysOf S2 ∧ (n ∈ keysOf (applySnapshot d emptySt S1).components ∨
          ∃ p, (n, p) ∈ S2 ∧ registered p.type = true))
    ∧ (keysOf (applySnapshot d (applySnapshot d emptySt S1) S2).components).Nodup
    ∧ (∀ n x, alookup (applySnapshot d emptySt S1).components n = some x →
        n ∈ keysOf S2 →
        ∃ y, alookup (applySnapshot d (applySnapshot d emptySt S1) S2).components n =
            some y ∧ y.nodeId = x.nodeId)
    ∧ (∀ n x, alookup (applySnapshot d emptySt S1).components n = some x →
        n ∉ keysOf S2 →
        alookup (applySnapshot d (applySnapshot d emptySt S1) S2).components n = none ∧
          x.nodeId ∉ (applySnapshot d (applySnapshot d emptySt S1) S2).sceneChildren) := by
  refine ⟨?_, ?_, ?_, ?_, ?_⟩
  · intro n
    rw [mem_keys_applySnapshot]
    constructor
    · rintro ⟨h1, h2 | h2⟩
      · simp [emptySt, keysOf] at h2
      · exact h2
    · rintro ⟨p, hp, hr⟩
      exact ⟨mem_keysOf.mpr ⟨p, hp⟩, Or.inr ⟨p, hp, hr⟩⟩
  · intro n
    exact mem_keys_applySnapshot
  · exact nodup_keys_applySnapshot
      (nodup_keys_applySnapshot (by simp [emptySt, keysOf]))
  · intro n x hx hn
    rw [applySnapshot_def, alookup_removePhase, if_pos hn]
    obtain ⟨y, hy, h1, _, _⟩ :=
      @fold_lookup_preserved d S2 (applySnapshot d emptySt S1) n x hx
    exact ⟨y, hy, h1⟩
  · intro n x hx hn
    constructor
    · rw [applySnapshot_def, alookup_removePhase, if_neg hn]
    · intro hmem
      rw [applySnapshot_def, removePhase_sceneChildren] at hmem
      have hnot := (List.mem_filter.mp hmem).2
      simp only [decide_not, Bool.not_eq_true', decide_eq_false_iff_not] at hnot
      apply hnot
      obtain ⟨y, hy, h1, _, _⟩ :=
        @fold_lookup_preserved d S2 (applySnapshot d emptySt S1) n x hx
      have hyA : (n, y) ∈
          (S2.foldl (processEntry d) (applySnapshot d emptySt S1)).components :=
        alookup_mem hy
      refine List.mem_map.mpr ⟨(n, y), List.mem_filter.mpr ⟨hyA, ?_⟩, ?_⟩
      · simpa using hn
      · simpa using h1

/-- C3 (amended): in the snapshot reconciler `_applySnapshot`, a name whose
entries all carry unregistered types gets no node and no index entry (given it
was not already live), while every other component is still processed: index
membership is exactly as the registry dictates. -/
theorem applySnapshot_skips_unregistered (d : Mat16 → Trs) (st : St)
    (data : List (String × Props)) (n : String)
    (hn : ∀ e ∈ data, e.1 = n → registered e.2.type = false)
    (hst : n ∉ keysOf st.components) :
    n ∉ keysOf (applySnapshot d st data).components
    ∧ ∀ m, m ∈ keysOf (applySnapshot d st data).components ↔
        m ∈ keysOf data ∧ (m ∈ keysOf st.components ∨
          ∃ q, (m, q) ∈ data ∧ registered q.type = true) := by
  refine ⟨?_, fun m => mem_keys_applySnapshot⟩
  intro h
  rcases mem_keys_applySnapshot.mp h with ⟨_, h2 | ⟨q, hq, hr⟩⟩
  · exact hst h2
  · rw [hn (n, q) hq rfl] at hr
    cases hr

end Snap

theorem mem_aset {β : Type} {l : List (String × β)} {k : String} {v : β}
    {e : String × β} (h : e ∈ aset l k v) : e ∈ l ∨ e = (k, v) := by
  unfold aset at h
  by_cases hk : k ∈ keysOf l
  · rw [if_pos hk] at h
    rcases mem_aupdate h with h1 | ⟨w, _, he⟩
    · exact Or.inl h1
    · exact Or.inr he
  · rw [if_neg hk] at h
    rcases List.mem_append.mp h with h1 | h1
    · exact Or.inl h1
    · exact Or.inr (List.mem_singleton.mp h1)

theorem keysOf_aset_notmem {β : Type} {l : List (String × β)} {k : String}
    {v : β} (h : k ∉ keysOf l) : keysOf (aset l k v) = keysOf l ++ [k] := by
  unfold aset
  rw [if_neg h, keysOf_append]
  rfl

theorem map_skel_aupdate {β γ : Type} (f : β → β) (n : String)
    (l : List (String × β)) (sk : β → γ) (h : ∀ v, sk (f v) = sk v) :
    (aupdate f n l).map (fun e => (e.1, sk e.2)) =
      l.map (fun e => (e.1, sk e.2)) := by
  induction l with
  | nil => rfl
  | cons e rest ih =>
    obtain ⟨k, v⟩ := e
    by_cases hk : k = n
    · rw [aupdate_cons, if_pos hk]
      simp [ih, h]
    · rw [aupdate_cons, if_neg hk]
      simp [ih]

namespace SceneJS

theorem updateEntry_skip_unknown {d : Mat16 → Trs} {s : St} {e : StateEntry}
    (h : alookup s.components e.id = none) : updateEntry d s e = s := by
  unfold updateEntry
  rw [h]

theorem updateEntry_no_matrix {d : Mat16 → Trs} {s : St} {e : StateEntry}
    {x : NodeJS} (h : alookup s.components e.id = some x)
    (hm : e.matrix = none) : updateEntry d s e = s := by
  unfold updateEntry
  rw [h, hm]

theorem updateEntry_matrix {d : Mat16 → Trs} {s : St} {e : StateEntry}
    {x : NodeJS} {m : List ℚ} (h : alookup s.components e.id = some x)
    (hm : e.matrix = some m) :
    updateEntry d s e =
      { s with components := aupdate (applyAbsMatrix d m) e.id s.components } := by
  unfold updateEntry
  rw [h, hm]

theorem updateEntry_structure (d : Mat16 → Trs) (s : St) (e : StateEntry) :
    (updateEntry d s e).components.map (fun en => (en.1, en.2.nodeId, en.2.isJoint)) =
      s.components.map (fun en => (en.1, en.2.nodeId, en.2.isJoint))
    ∧ (updateEntry d s e).sceneChildren = s.sceneChildren
    ∧ (updateEntry d s e).selectedId = s.selectedId
    ∧ (updateEntry d s e).nextId = s.nextId := by
  rcases h : alookup s.components e.id with _ | x
  · rw [updateEntry_skip_unknown h]
    exact ⟨rfl, rfl, rfl, rfl⟩
  · rcases hm : e.matrix with _ | m
    · rw [updateEntry_no_matrix h hm]
      exact ⟨rfl, rfl, rfl, rfl⟩
    · rw [updateEntry_matrix h hm]
      refine ⟨?_, rfl, rfl, rfl⟩
      exact map_skel_aupdate (applyAbsMatrix d m) e.id s.components
        (fun v => (v.nodeId, v.isJoint)) (fun v => by simp [applyAbsMatrix])

theorem updateFromState_structure (d : Mat16 → Trs) (u : List StateEntry)
    (st : St) :
    (updateFromState d st u).components.map (fun en => (en.1, en.2.nodeId, en.2.isJoint)) =
      st.components.map (fun en => (en.1, en.2.nodeId, en.2.isJoint))
    ∧ (updateFromState d st u).sceneChildren = st.sceneChildren
    ∧ (updateFromState d st u).selectedId = st.selectedId
    ∧ (updateFromState d st u).nextId = st.nextId := by
  induction u generalizing st with
  | nil => exact ⟨rfl, rfl, rfl, rfl⟩
  | cons e rest ih =>
    obtain ⟨h1, h2, h3, h4⟩ := ih (updateEntry d st e)
    obtain ⟨g1, g2, g3, g4⟩ := updateEntry_structure d st e
    exact ⟨h1.trans g1, h2.trans g2, h3.trans g3, h4.trans g4⟩

theorem createComponent_components (s : St) (c : ComponentDef) :
    (createComponent s c).components =
      aset s.components c.id (mkNodeJS s.nextId c) := rfl

theorem create_fold_nextId (comps : List ComponentDef) (s : St) :
    (comps.foldl createComponent s).nextId = s.nextId + comps.length := by
  induction comps generalizing s with
  | nil => simp
  | cons c rest ih =>
    rw [List.foldl_cons, ih]
    show s.nextId + 1 + rest.length = _
    simp only [List.length_cons]
    omega

theorem create_fold_selectedId (comps : List ComponentDef) (s : St) :
    (comps.foldl createComponent s).selectedId = s.selectedId := by
  induction comps generalizing s with
  | nil => rfl
  | cons c rest ih =>
    rw [List.foldl_cons, ih]
    rfl

theorem create_fold_mem (comps : List ComponentDef) (s : St) :
    ∀ e ∈ (comps.foldl createComponent s).components,
      e ∈ s.components ∨ s.nextId ≤ e.2.nodeId := by
  induction comps generalizing s with
  | nil => exact fun e he => Or.inl he
  | cons c rest ih =>
    intro e he
    rw [List.foldl_cons] at he
    rcases ih (createComponent s c) e he with h1 | h1
    · rw [createComponent_components] at h1
      rcases mem_aset h1 with h2 | h2
      · exact Or.inl h2
      · right
        rw [h2]
        exact Nat.le_refl _
    · right
      have : (createComponent s c).nextId = s.nextId + 1 := rfl
      omega

theorem create_fold_keys : ∀ (comps : List ComponentDef) (s : St),
    (∀ c ∈ comps, c.id ∉ keysOf s.components) →
    (comps.map (fun c => c.id)).Nodup →
    keysOf (comps.foldl createComponent s).components =
      keysOf s.components ++ comps.map (fun c => c.id)
  | [], s, _, _ => by simp
  | c :: rest, s, hdisj, hnd => by
    simp only [List.foldl_cons, List.map_cons]
    have hc : c.id ∉ keysOf s.components := hdisj c (List.mem_cons_self _ _)
    have hk : keysOf (createComponent s c).components =
        keysOf s.components ++ [c.id] := by
      rw [createComponent_components, keysOf_aset_notmem hc]
    have hnd' := List.nodup_cons.mp hnd
    have hdisj' : ∀ x ∈ rest, x.id ∉ keysOf (createComponent s c).components := by
      intro x hx
      rw [hk]
      intro hmem
      rcases List.mem_append.mp hmem with h1 | h1
      · exact hdisj x (List.mem_cons_of_mem _ hx) h1
      · rw [List.mem_singleton] at h1
        apply hnd'.1
        show c.id ∈ List.map (fun c => c.id) rest
        rw [← h1]
        exact List.mem_map.mpr ⟨x, hx, rfl⟩
    rw [create_fold_keys rest (createComponent s c) hdisj' hnd'.2, hk]
    simp

theorem create_fold_sceneChildren : ∀ (comps : List ComponentDef) (s : St),
    (comps.foldl createComponent s).sceneChildren =
      s.sceneChildren ++ freshIds s.nextId comps.length
  | [], s => by simp [freshIds]
  | c :: rest, s => by
    simp only [List.foldl_cons, List.length_cons]
    rw [create_fold_sceneChildren rest (createComponent s c)]
    show (s.sceneChildren ++ [s.nextId]) ++ freshIds (s.nextId + 1) rest.length =
      s.sceneChildren ++ freshIds s.nextId (rest.length + 1)
    rw [List.append_assoc]
    rfl

theorem mem_freshIds : ∀ {k a i : Nat}, i ∈ freshIds a k → a ≤ i
  | 0, _, _, h => by cases h
  | k + 1, a, i, h => by
    rcases List.mem_cons.mp h with h1 | h1
    · omega
    · have := mem_freshIds h1
      omega

theorem buildFromDefinition_def (st : St) (defn : Definition) :
    buildFromDefinition st defn =
      defn.components.foldl createComponent
        { components := [],
          sceneChildren := st.sceneChildren.filter
            (fun i => i ∉ st.components.map (fun e => e.2.nodeId)),
          selectedId := none,
          nextId := st.nextId } := rfl

/-- C5: full-rebuild contract of `buildFromDefinition` for every prior
reconciler state — the selection is reset to none, the index holds exactly one
node per component of the definition keyed by id, every node in the rebuilt
index is freshly allocated, every prior node is removed from the index and
detached from the scene root, and the allocator advanced by the component
count. -/
theorem buildFromDefinition_contract (st : St) (defn : Definition)
    (hids : (defn.components.map (fun c => c.id)).Nodup)
    (hold : ∀ e ∈ st.components, e.2.nodeId < st.nextId) :
    (buildFromDefinition st defn).selectedId = none
    ∧ keysOf (buildFromDefinition st defn).components =
        defn.components.map (fun c => c.id)
    ∧ (∀ e ∈ (buildFromDefinition st defn).components, st.nextId ≤ e.2.nodeId)
    ∧ (∀ e ∈ st.components,
        e.2.nodeId ∉ (buildFromDefinition st defn).sceneChildren)
    ∧ (buildFromDefinition st defn).nextId = st.nextId + defn.components.length := by
  rw [buildFromDefinition_def]
  refine ⟨?_, ?_, ?_, ?_, ?_⟩
  · rw [create_fold_selectedId]
  · rw [create_fold_keys defn.components _ (fun c _ => by simp [keysOf]) hids]
    simp [keysOf]
  · intro e he
    rcases create_fold_mem defn.components _ e he with h | h
    · simp at h
    · exact h
  · intro e he hmem
    rw [create_fold_sceneChildren] at hmem
    rcases List.mem_append.mp hmem with h | h
    · have := (List.mem_filter.mp h).2
      simp only [decide_not, Bool.not_eq_true', decide_eq_false_iff_not] at this
      exact this (List.mem_map.mpr ⟨e, he, rfl⟩)
    · have h1 : st.nextId ≤ e.2.nodeId := mem_freshIds h
      have h2 := hold e he
      omega
  · rw [create_fold_nextId]

end SceneJS

namespace Tree

theorem mem_rootsOf {comps : List CompT} {c : CompT} :
    c ∈ rootsOf comps ↔ c ∈ comps ∧ truthyStr c.parent = false := by
  unfold rootsOf
  rw [List.mem_filter]
  simp

theorem mem_subtree_cases {comps : List CompT} :
    ∀ {fuel : Nat} {nid x : String}, x ∈ subtreeIds comps fuel nid →
      x = nid ∨ ∃ pid, x ∈ childrenOf comps pid := by
  intro fuel
  induction fuel with
  | zero =>
    intro nid x h
    cases h
  | succ k ih =>
    intro nid x h
    simp only [subtreeIds] at h
    rcases List.mem_cons.mp h with h1 | h1
    · exact Or.inl h1
    · rw [List.mem_flatMap] at h1
      obtain ⟨cid, hcid, hx⟩ := h1
      rcases ih hx with h2 | h2
      · right
        refine ⟨nid, ?_⟩
        rw [h2]
        exact hcid
      · exact Or.inr h2

theorem mem_renderedIds_cases {comps : List CompT} {x : String}
    (h : x ∈ renderedIds comps) :
    (∃ r ∈ rootsOf comps, r.id = x) ∨ ∃ pid, x ∈ childrenOf comps pid := by
  unfold renderedIds at h
  rw [List.mem_flatMap] at h
  obtain ⟨r, hr, hx⟩ := h
  rcases mem_subtree_cases hx with h1 | h1
  · exact Or.inl ⟨r, hr, h1.symm⟩
  · exact Or.inr h1

theorem roots_rendered {comps : List CompT} {c : CompT} (hc : c ∈ comps)
    (hp : truthyStr c.parent = false) : c.id ∈ renderedIds comps := by
  unfold renderedIds
  rw [List.mem_flatMap]
  refine ⟨c, mem_rootsOf.mpr ⟨hc, hp⟩, ?_⟩
  simp only [subtreeIds]
  exact List.mem_cons_self _ _

theorem mem_childrenOf {comps : List CompT} {pid x : String}
    (h : x ∈ childrenOf comps pid) :
    pid ∈ idsOf comps ∧
      ∃ c ∈ comps, c.id = x ∧ truthyStr c.parent = true ∧ c.parent = some pid := by
  unfold childrenOf at h
  by_cases hpid : pid ∈ idsOf comps
  · rw [if_pos hpid] at h
    refine ⟨hpid, ?_⟩
    obtain ⟨c, hc, hcx⟩ := List.mem_map.mp h
    obtain ⟨hc1, hc2⟩ := List.mem_filter.mp hc
    simp only [Bool.and_eq_true, decide_eq_true_eq] at hc2
    exact ⟨c, hc1, hcx, hc2.1, hc2.2⟩
  · rw [if_neg hpid] at h
    cases h

theorem id_inj {comps : List CompT} (h : (idsOf comps).Nodup) {a b : CompT}
    (ha : a ∈ comps) (hb : b ∈ comps) (hid : a.id = b.id) : a = b :=
  List.inj_on_of_nodup_map h ha hb hid

end Tree

namespace Details

theorem find?_eq_some_of_unique {α : Type} {p : α → Bool} {j : α} :
    ∀ (l : List α), j ∈ l → p j = true → (∀ c ∈ l, p c = true → c = j) →
      l.find? p = some j
  | [], hj, _, _ => by cases hj
  | a :: rest, hj, hpj, huniq => by
    by_cases ha : p a = true
    · rw [List.find?_cons_of_pos _ ha, huniq a (List.mem_cons_self _ _) ha]
    · rw [List.find?_cons_of_neg _ (by simpa using ha)]
      rcases List.mem_cons.mp hj with h | h
      · rw [h] at hpj
        exact absurd hpj ha
      · exact find?_eq_some_of_unique rest h hpj
          (fun c hc hpc => huniq c (List.mem_cons_of_mem _ hc) hpc)

theorem getRobotJointsAux_of_chain :
    ∀ (chain js : List CompD) (pid : String) (fuel : Nat),
      isChain js pid chain = true → chain.length < fuel →
      getRobotJointsAux js pid fuel = chain
  | _, _, _, 0, _, hlen => absurd hlen (Nat.not_lt_zero _)
  | [], js, pid, fuel + 1, h, _ => by
    simp only [isChain, List.all_eq_true] at h
    have hf : js.find? (fun c => decide (c.parent = some pid)) = none :=
      List.find?_eq_none.mpr (fun c hc => by simpa using h c hc)
    simp only [getRobotJointsAux, hf]
  | j :: rest, js, pid, fuel + 1, h, hlen => by
    simp only [isChain, Bool.and_eq_true, List.all_eq_true, decide_eq_true_eq] at h
    obtain ⟨⟨⟨hmem, hpar⟩, huniq⟩, hrest⟩ := h
    have hfind : js.find? (fun c => decide (c.parent = some pid)) = some j := by
      apply find?_eq_some_of_unique js hmem (by simpa using hpar)
      intro c hc hpc
      have h2 := huniq c hc
      simp only [Bool.or_eq_true, Bool.not_eq_true', decide_eq_false_iff_not,
        decide_eq_true_eq] at h2
      rcases h2 with h2 | h2
      · exact absurd (by simpa using hpc) h2
      · exact h2
    simp only [getRobotJointsAux, hfind]
    rw [getRobotJointsAux_of_chain rest js j.id fuel hrest
      (by simp only [List.length_cons] at hlen; omega)]

/-- C7: `_getRobotJoints` returns exactly the joint chain in root-to-tip
order — whenever `chain` is the chain of joints starting at the robot's id
(each link the unique joint whose parent is the previous link, nothing after
the last), the discovery returns `chain`. -/
theorem getRobotJoints_of_chain (components : List CompD) (robot : CompD)
    (chain : List CompD)
    (h : isChain (components.filter (fun c => decide (c.component_type = "joint")))
        robot.id chain = true)
    (hlen : chain.length ≤ components.length) :
    getRobotJoints components robot = chain := by
  unfold getRobotJoints
  exact getRobotJointsAux_of_chain chain _ robot.id (components.length + 1) h
    (by omega)

end Details

namespace Assets

theorem findBody_foldl_none {bn : String} :
    ∀ (l : List Obj) (acc : Option Obj), (∀ o ∈ l, o.nameOf ≠ bn) →
      l.foldl (fun acc o => if o.nameOf = bn then some o else acc) acc = acc
  | [], _, _ => rfl
  | o :: rest, acc, h => by
    rw [List.foldl_cons, if_neg (h o (List.mem_cons_self _ _))]
    exact findBody_foldl_none rest acc (fun x hx => h x (List.mem_cons_of_mem _ hx))

/-- C9: for every successfully loaded asset, a `loadModelBody` call whose
body name matches no object in the asset resolves (never rejects) to the
fixed-size warning-colored placeholder mesh. -/
theorem loadModelBody_missing (m : Obj) (bodyName : String)
    (h : ∀ o ∈ m.preorder, o.nameOf ≠ bodyName) :
    loadModelBody (.ok m) bodyName = .ok placeholderMesh := by
  have hfind : findBody m bodyName = none := findBody_foldl_none m.preorder none h
  unfold loadModelBody
  show Except.ok (extractBody m bodyName) = _
  unfold extractBody
  rw [hfind]

theorem cachedLoad_hit {loader : String → Except String Obj} {st : CacheSt}
    {filePath : String} {r : Except String Obj}
    (h : alookup st.modelCache filePath = some r) :
    cachedLoad loader st filePath = (r, st) := by
  unfold cachedLoad
  rw [h]

theorem cachedLoad_miss {loader : String → Except String Obj} {st : CacheSt}
    {filePath : String} (h : alookup st.modelCache filePath = none) :
    cachedLoad loader st filePath =
      (loader filePath,
        ⟨st.modelCache ++ [(filePath, loader filePath)],
         st.loadLog ++ [filePath]⟩) := by
  unfold cachedLoad
  rw [h]

theorem runCalls_cons (loader : String → Except String Obj) (st : CacheSt)
    (f b : String) (rest : List (String × String)) :
    runCalls loader st ((f, b) :: rest) =
      (loadModelBody (cachedLoad loader st ("/static/assets/" ++ f)).1 b ::
          (runCalls loader (cachedLoad loader st ("/static/assets/" ++ f)).2 rest).1,
        (runCalls loader (cachedLoad loader st ("/static/assets/" ++ f)).2 rest).2) := rfl

theorem runCalls_spec (loader : String → Except String Obj) :
    ∀ (calls : List (String × String)) (st : CacheSt),
      (∀ e ∈ st.modelCache, e.2 = loader e.1) →
      keysOf st.modelCache = st.loadLog →
      st.loadLog.Nodup →
      ((runCalls loader st calls).1 =
          calls.map (fun c => loadModelBody (loader ("/static/assets/" ++ c.1)) c.2))
        ∧ (∀ e ∈ (runCalls loader st calls).2.modelCache, e.2 = loader e.1)
        ∧ keysOf (runCalls loader st calls).2.modelCache =
            (runCalls loader st calls).2.loadLog
        ∧ (runCalls loader st calls).2.loadLog.Nodup
  | [], _, h1, h2, h3 => ⟨rfl, h1, h2, h3⟩
  | (f, b) :: rest, st, h1, h2, h3 => by
    rw [runCalls_cons]
    rcases hl : alookup st.modelCache ("/static/assets/" ++ f) with _ | r
    · rw [cachedLoad_miss hl]
      have hnotin : ("/static/assets/" ++ f) ∉ st.loadLog := by
        rw [← h2]
        exact alookup_eq_none.mp hl
      have e1 : ∀ e ∈ st.modelCache ++
          [("/static/assets/" ++ f, loader ("/static/assets/" ++ f))],
          e.2 = loader e.1 := by
        intro e he
        rcases List.mem_append.mp he with h | h
        · exact h1 e h
        · rw [List.mem_singleton] at h
          rw [h]
      have e2 : keysOf (st.modelCache ++
          [("/static/assets/" ++ f, loader ("/static/assets/" ++ f))]) =
          st.loadLog ++ ["/static/assets/" ++ f] := by
        rw [keysOf_append, h2]
        rfl
      have e3 : (st.loadLog ++ ["/static/assets/" ++ f]).Nodup := by
        refine List.Nodup.append h3 (List.nodup_singleton _) ?_
        intro a ha hb
        rw [List.mem_singleton] at hb
        subst hb
        exact hnotin ha
      obtain ⟨g1, g2, g3, g4⟩ := runCalls_spec loader rest
        ⟨st.modelCache ++ [("/static/assets/" ++ f, loader ("/static/assets/" ++ f))],
         st.loadLog ++ ["/static/assets/" ++ f]⟩ e1 e2 e3
      exact ⟨by rw [List.map_cons, g1], g2, g3, g4⟩
    · rw [cachedLoad_hit hl]
      have hr : r = loader ("/static/assets/" ++ f) := h1 _ (alookup_mem hl)
      obtain ⟨g1, g2, g3, g4⟩ := runCalls_spec loader rest st h1 h2 h3
      exact ⟨by rw [List.map_cons, g1, hr], g2, g3, g4⟩

end Assets

namespace SceneJS

/-! ### Claim-level theorems, concrete inputs, witnesses and counterexamples -/
/-- C4: `updateFromState` never creates, removes, re-keys or re-types a node,
never touches the scene root's children, the selection or the allocator —
entries only apply the absolute-matrix transform — and an entry whose id is
not in the index leaves the state entirely unchanged. -/
theorem updateFromState_never_creates (d : Mat16 → Trs) (st : St)
    (u : List StateEntry) :
    ((updateFromState d st u).components.map (fun en => (en.1, en.2.nodeId, en.2.isJoint)) =
        st.components.map (fun en => (en.1, en.2.nodeId, en.2.isJoint)))
    ∧ (updateFromState d st u).sceneChildren = st.sceneChildren
    ∧ (updateFromState d st u).selectedId = st.selectedId
    ∧ (updateFromState d st u).nextId = st.nextId
    ∧ (∀ e, alookup st.components e.id = none → updateEntry d st e = st) := by
  obtain ⟨h1, h2, h3, h4⟩ := updateFromState_structure d u st
  exact ⟨h1, h2, h3, h4, fun e h => updateEntry_skip_unknown h⟩

/-- C6: a press/release pair handled by `setPicking` attempts the ray pick
exactly when the squared pointer travel is at most 25 (a 5 px threshold); in
particular press (100,100) / release (100,100) picks, and press (100,100) /
release (110,108) is treated as a drag and suppressed. -/
theorem setPicking_click_vs_drag :
    (∀ (s : Option (Int × Int)) (px py rx ry : Int),
      (onPointerUp (onPointerDown s px py) rx ry).2 =
        decide ((rx - px) * (rx - px) + (ry - py) * (ry - py) ≤ 25))
    ∧ (onPointerUp (onPointerDown none 100 100) 100 100).2 = true
    ∧ (onPointerUp (onPointerDown none 100 100) 110 108).2 = false := by
  refine ⟨?_, by decide, by decide⟩
  intro s px py rx ry
  show (if (rx - px) * (rx - px) + (ry - py) * (ry - py) > 25
      then ((none : Option (Int × Int)), false) else (none, true)).2 = _
  by_cases h : (rx - px) * (rx - px) + (ry - py) * (ry - py) ≤ 25
  · rw [if_neg (not_lt.mpr h)]
    simp [h]
  · rw [if_pos (lt_of_not_le h)]
    simp [h]

end SceneJS

/-- C8 (amended): the roots of the rendered tree are exactly the components
whose parent field is absent or falsy; every such component is rendered; and a
component referencing a parent id that does not occur in the list is not a
root and appears nowhere in the rendered tree (it is silently dropped). -/
theorem mountSceneTree_root_policy (comps : List Tree.CompT)
    (hids : (Tree.idsOf comps).Nodup) :
    (∀ c, c ∈ Tree.rootsOf comps ↔ c ∈ comps ∧ truthyStr c.parent = false)
    ∧ (∀ c ∈ comps, truthyStr c.parent = false → c.id ∈ Tree.renderedIds comps)
    ∧ (∀ c ∈ comps, ∀ p, c.parent = some p → truthyStr c.parent = true →
        p ∉ Tree.idsOf comps → c.id ∉ Tree.renderedIds comps) := by
  refine ⟨fun c => Tree.mem_rootsOf, fun c hc hp => Tree.roots_rendered hc hp, ?_⟩
  intro c hc p hp htr hnp hrend
  rcases Tree.mem_renderedIds_cases hrend with ⟨r, hr, hrid⟩ | ⟨pid, hpid⟩
  · obtain ⟨hrc, hrp⟩ := Tree.mem_rootsOf.mp hr
    have hrc2 : r = c := Tree.id_inj hids hrc hc hrid
    rw [hrc2, htr] at hrp
    cases hrp
  · obtain ⟨hpidmem, c2, hc2, hcid, _, hpar2⟩ := Tree.mem_childrenOf hpid
    have hc2c : c2 = c := Tree.id_inj hids hc2 hc hcid
    rw [hc2c, hp] at hpar2
    injection hpar2 with hpp
    rw [hpp] at hnp
    exact hnp hpidmem

namespace Assets

/-- C10: over any session of `loadModelBody` calls from a fresh module cache,
each file path's GLB load is initiated at most once (the load log has no
duplicates), and every call's result is the shared cached outcome of its
path's single load — after a failed load, later calls for the path reject
with that same cached failure and never retry. -/
theorem modelCache_single_load (loader : String → Except String Obj)
    (calls : List (String × String)) :
    (runCalls loader emptyCache calls).2.loadLog.Nodup
    ∧ (runCalls loader emptyCache calls).1 =
        calls.map (fun c => loadModelBody (loader ("/static/assets/" ++ c.1)) c.2) := by
  obtain ⟨g1, _, _, g4⟩ := runCalls_spec loader calls emptyCache
    (fun e he => by cases he) rfl List.nodup_nil
  exact ⟨g4, g1⟩

end Assets

/-- C1 counterexample: after applying S1 then S2, the name `a` is still in
the component index although no entry of S2 for `a` has a registered type —
so the index is not exactly "the node set implied by S2's names whose types
are registered". -/
theorem applySnapshot_pair_counterexample :
    "a" ∈ keysOf (Snap.applySnapshot decompose0
        (Snap.applySnapshot decompose0 Snap.emptySt cexS1) cexS2).components
    ∧ ∀ e ∈ cexS2, Snap.registered e.2.type = false := by
  constructor
  · decide
  · decide

theorem applySnapshot_pair_exact_sync_witness :
    (∃ y, alookup (Snap.applySnapshot decompose0
        (Snap.applySnapshot decompose0 Snap.emptySt wS1) wS2).components "a" =
        some y ∧ y.nodeId = 0)
    ∧ alookup (Snap.applySnapshot decompose0
        (Snap.applySnapshot decompose0 Snap.emptySt wS1) wS2).components "b" = none
    ∧ "a" ∈ keysOf (Snap.applySnapshot decompose0 Snap.emptySt wS1).components := by
  obtain ⟨h1, h2, h3, h4, h5⟩ := Snap.applySnapshot_pair_exact_sync decompose0 wS1 wS2
  refine ⟨?_, ?_, ?_⟩
  · obtain ⟨y, hy, hid⟩ := h4 "a" (Snap.mkNode 0 "a" "Joint") (by decide) (by decide)
    exact ⟨y, hy, by rw [hid]; rfl⟩
  · exact (h5 "b" (Snap.mkNode 1 "b" "Link") (by decide) (by decide)).1
  · exact (h1 "a").mpr ⟨⟨"Joint", none⟩, by decide, by decide⟩

theorem applySnapshot_idem_witness :
    (keysOf wSnap).Nodup ∧ (keysOf Snap.emptySt.components).Nodup ∧
      Snap.applySnapshot decompose0
          (Snap.applySnapshot decompose0 Snap.emptySt wSnap) wSnap =
        Snap.applySnapshot decompose0 Snap.emptySt wSnap :=
  ⟨by decide, by decide,
    Snap.applySnapshot_idem decompose0 wSnap Snap.emptySt (by decide) (by decide)⟩

theorem applySnapshot_skips_unregistered_witness :
    "widget" ∉ keysOf (Snap.applySnapshot decompose0 Snap.emptySt wSkip).components
    ∧ "ok" ∈ keysOf (Snap.applySnapshot decompose0 Snap.emptySt wSkip).components := by
  obtain ⟨h1, h2⟩ := Snap.applySnapshot_skips_unregistered decompose0 Snap.emptySt
    wSkip "widget" (by decide) (by decide)
  exact ⟨h1, (h2 "ok").mpr ⟨by decide, Or.inr ⟨⟨"Joint", none⟩, by decide, by decide⟩⟩⟩

/-- C3 counterexample: `buildFromDefinition` creates a node and an index entry
for a component whose type tag is registered in no model registry (every
non-`joint` type falls back to a plain group), so scene creation does not skip
it. -/
theorem buildFromDefinition_unknown_type_creates_node :
    keysOf (SceneJS.buildFromDefinition SceneJS.emptySt defnMystery).components = ["x"]
    ∧ Snap.registered "mystery" = false := by
  constructor
  · decide
  · decide

theorem updateFromState_never_creates_witness :
    SceneJS.updateEntry decompose0 wScene ⟨"ghost", none⟩ = wScene
    ∧ (SceneJS.updateFromState decompose0 wScene wUpdate).sceneChildren =
        wScene.sceneChildren := by
  obtain ⟨h1, h2, h3, h4, h5⟩ :=
    SceneJS.updateFromState_never_creates decompose0 wScene wUpdate
  exact ⟨h5 ⟨"ghost", none⟩ (by decide), h2⟩

theorem buildFromDefinition_contract_witness :
    (SceneJS.buildFromDefinition wScene wDefn).selectedId = none
    ∧ keysOf (SceneJS.buildFromDefinition wScene wDefn).components =
        ["robot", "j1"] := by
  obtain ⟨h1, h2, h3, h4, h5⟩ :=
    SceneJS.buildFromDefinition_contract wScene wDefn (by decide) (by decide)
  exact ⟨h1, by rw [h2]; rfl⟩

theorem getRobotJoints_of_chain_witness :
    Details.getRobotJoints [wRobot, wJ1, wJ2] wRobot = [wJ1, wJ2] :=
  Details.getRobotJoints_of_chain [wRobot, wJ1, wJ2] wRobot [wJ1, wJ2]
    (by decide) (by decide)

/-- C8 counterexample: component `b` references the unresolvable parent id
`ghost`; it is not a root of the rendered hierarchy and appears nowhere in
the rendered tree, contradicting "every component with no resolvable parent
appears as a top-level root / no component is silently dropped". -/
theorem dangling_parent_component_dropped :
    (⟨"b", some "ghost"⟩ : Tree.CompT) ∉ Tree.rootsOf cexTreeComps
    ∧ "b" ∉ Tree.renderedIds cexTreeComps := by
  constructor
  · decide
  · decide

theorem mountSceneTree_root_policy_witness :
    "a" ∈ Tree.renderedIds wTreeComps
    ∧ (⟨"a", none⟩ : Tree.CompT) ∈ Tree.rootsOf wTreeComps := by
  obtain ⟨h1, h2, h3⟩ := mountSceneTree_root_policy wTreeComps (by decide)
  exact ⟨h2 ⟨"a", none⟩ (by decide) (by decide), (h1 _).mpr ⟨by decide, by decide⟩⟩

theorem loadModelBody_missing_witness :
    Assets.loadModelBody (.ok wModel) "Nope" = .ok Assets.placeholderMesh :=
  Assets.loadModelBody_missing wModel "Nope" (by decide)

end RoboAxis
